import Mathlib

/-!
Verification development for the matrix-appservice-discord bridge sources.

The development shallowly embeds the parts of the TypeScript sources that the
checked properties are about:

* `Mmp` — the Matrix → Discord message converter (`MatrixMessageProcessor`,
  src/unnamed/part_000): `escapeDiscord`, `FormatMessage` (plain-text branch),
  and the HTML tree walker (`walkNode`, `parsePillContent`, `parseUser`, ...).
  JavaScript strings are modelled as `List Char`; the HTML parser
  (node-html-parser) is an external library, so formatted bodies enter the
  model already parsed, as a forest of `PNode` trees.
* `Mep` — the Matrix event processor (src/src/matrixeventprocessor.ts, second
  revision in the file: `EventToEmbed`, `GetEmbedForReply`,
  `HandleAttachment`, `SetEmbedAuthor`).  Network-bound capabilities
  (profile fetch, event fetch, media download, message formatting by the
  sibling module) are modelled as oracle functions in an environment record;
  a fallible capability returns `Option`.
* `Bot` — the Discord-side bot (`DiscordBot` in the same file, third
  concatenated revision): the `OnMessage` echo-suppression prefix and
  `ProcessMatrixRedact`, modelled as state transformers that also report
  which externally visible action was taken.
* `Chain` — the per-channel delivery chain built by `DiscordBot.run` out of
  chained promises (`discordMessageQueue`), modelled as a nondeterministic
  transition system: a task may begin (its network call is issued, which
  appends its index to the observation trace) only once its predecessor has
  settled, and a begun task settles at an arbitrary later time.
-/

namespace Mmp

/-- Options of the message processor, src/unnamed/part_000 line 11:
`constructor(readonly disableEveryone: boolean = true, readonly disableHere: boolean = true)`. -/
structure MatrixMessageProcessorOpts where
  disableEveryone : Bool := true
  disableHere : Bool := true
deriving DecidableEq

/-- Boolean prefix test on character lists (JavaScript `String.startsWith`
and the implicit anchoring of the `^`-anchored regexes in the source). -/
def isPref : List Char → List Char → Bool
  | [], _ => true
  | _ :: _, [] => false
  | p :: ps, c :: cs => p == c && isPref ps cs

/-- Boolean substring test: some position of `s` has `pat` as a prefix. -/
def hasSubstr (s pat : List Char) : Bool :=
  match s with
  | [] => isPref pat []
  | _ :: rest => isPref pat s || hasSubstr rest pat

/-- Helper for `listReplace`: scans the string left to right; `skip > 0`
means that many characters still belong to an already-replaced match and are
consumed without being emitted. -/
def replaceAux (pat rep : List Char) : List Char → Nat → List Char
  | [], _ => []
  | _ :: rest, Nat.succ k => replaceAux pat rep rest k
  | c :: rest, 0 =>
    if isPref pat (c :: rest) then rep ++ replaceAux pat rep rest (pat.length - 1)
    else c :: replaceAux pat rep rest 0

/-- JavaScript `msg.replace(/pat/g, rep)` for a literal pattern: replace every
(non-overlapping, leftmost-first) occurrence of `pat` by `rep`. -/
def listReplace (pat rep s : List Char) : List Char :=
  replaceAux pat rep s 0

/-- The characters escaped for Discord, src/unnamed/part_000 line 60:
`const escapeChars = ["\\", "*", "_", "~", "\x60"]`. -/
def escapeChars : List Char := ['\\', '*', '_', '~', Char.ofNat 96]

/-- Embedding of `MatrixMessageProcessor.escapeDiscord`, src/unnamed/part_000 lines 52-65.
Note that the function receives no information about the sender: the
`@room` → `@here` substitution on line 59 is applied unconditionally. -/
def escapeDiscord (opts : MatrixMessageProcessorOpts) (msg : List Char) : List Char :=
  let m1 := if opts.disableEveryone then listReplace ("@everyone".data) ("@ everyone".data) msg else msg
  let m2 := if opts.disableHere then listReplace ("@here".data) ("@ here".data) m1 else m1
  let m3 := listReplace ("@room".data) ("@here".data) m2
  escapeChars.foldl (fun m c => listReplace [c] ['\\', c] m) m3

/-- A node of the parsed HTML document (the Document Tree): the output of the
external node-html-parser library consumed by `walkNode`. -/
inductive PNode where
  | text (s : List Char)
  | elem (tag : List Char) (attrs : List (List Char × List Char)) (children : List PNode)

mutual
/-- The `.text` property of a parsed node: concatenated text of all text
descendants (node-html-parser semantics used by the `code`/`pre` branches). -/
def textOf : PNode → List Char
  | .text s => s
  | .elem _ _ children => textOfList children

/-- The `.text` of a list of sibling nodes. -/
def textOfList : List PNode → List Char
  | [] => []
  | n :: rest => textOf n ++ textOfList rest
end

/-- Attribute lookup, JavaScript `node.attributes.key`. -/
def getAttr (attrs : List (List Char × List Char)) (key : List Char) : Option (List Char) :=
  (attrs.find? (fun p => p.1 == key)).map Prod.snd

/-- JavaScript truthiness for an optional string: `undefined` and `""` are
falsy. -/
def truthyL (o : Option (List Char)) : Option (List Char) :=
  match o with
  | some [] => none
  | some l => some l
  | none => none

/-- Word character of the regex class `\w`. -/
def wordChar (c : Char) : Bool := c.isAlphanum || c == '_'

/-- Lower-cased copy of a string, for the case-insensitive regexes. -/
def toLowerList (l : List Char) : List Char := l.map Char.toLower

/-- First index at which `pat` occurs in `l` (regex search without `^`). -/
def findSubIdx (pat : List Char) : List Char → Option Nat
  | [] => if isPref pat [] then some 0 else none
  | c :: rest => if isPref pat (c :: rest) then some 0 else (findSubIdx pat rest).map (· + 1)

/-- The `language-(\w*)` capture of `parsePreContent`, searched
case-insensitively inside the `<code ...>` attribute text. -/
def languageHint (attrsPart : List Char) : Option (List Char) :=
  match findSubIdx ("language-".data) (toLowerList attrsPart) with
  | some i => some ((attrsPart.drop (i + 9)).takeWhile wordChar)
  | none => none

/-- Removal of a trailing `</code>` tag, regex `/<\/code>$/i`. -/
def stripCodeClose (l : List Char) : List Char :=
  if isPref (("</code>".data).reverse) ((toLowerList l).reverse) then l.take (l.length - 7) else l

/-- The no-match tail of `parsePreContent`: ensure a leading newline. -/
def preNoMatch (text : List Char) : List Char :=
  if text.head? ≠ some '\n' then '\n' :: text else text

/-- Embedding of `MatrixMessageProcessor.parsePreContent`, src/unnamed/part_000 lines
67-88, operating on the raw `.text` of the `<pre>` node: strip a leading
`<code ...>` tag (regex `/^<code([^>]*)>/i`) and a trailing `</code>`,
ensure a leading newline, and prepend the `language-xxx` hint if present. -/
def parsePreContent (text : List Char) : List Char :=
  if isPref ("<code".data) (toLowerList text) then
    let after := text.drop 5
    let attrsPart := after.takeWhile (fun c => c ≠ '>')
    if attrsPart.length < after.length then
      let t1 := text.drop (5 + attrsPart.length + 1)
      let t2 := stripCodeClose t1
      let t3 := if t2.head? ≠ some '\n' then '\n' :: t2 else t2
      match languageHint attrsPart with
      | some lang => lang ++ t3
      | none => t3
    else preNoMatch text
  else preNoMatch text

/-- An emoji of the guild directory snapshot (`Discord.Emoji`). -/
structure EmojiData where
  id : List Char
  name : List Char
  animated : Bool
deriving DecidableEq

/-- The directory snapshot of the guild the message is bridged into:
member ids, channel ids and emoji known to the guild. -/
structure GuildData where
  members : List (List Char)
  channels : List (List Char)
  emojis : List EmojiData

/-- Environment of the message processor: its options, the guild set by
`FormatMessage`, and the external `bot.GetEmojiByMxc` capability (returns the
stored emoji id, `none` when the store lookup throws). -/
structure MMPEnv where
  opts : MatrixMessageProcessorOpts
  guild : GuildData
  getEmojiByMxc : List Char → Option (List Char)

/-- Embedding of `MatrixMessageProcessor.parseUser`, src/unnamed/part_000 lines 90-97:
regex `/^@_discord_([0-9]*)/`; empty string when the regex does not match or
the captured id is not in the guild member directory, else `<@id>`. -/
def parseUser (g : GuildData) (id : List Char) : List Char :=
  if isPref ("@_discord_".data) id then
    let digits := (id.drop 10).takeWhile Char.isDigit
    if g.members.contains digits then ("<@".data) ++ digits ++ (">".data) else []
  else []

/-- Embedding of `MatrixMessageProcessor.parseChannel`, src/unnamed/part_000 lines 99-106:
regex `/^#_discord_[0-9]*_([0-9]*)/`; the matrix.to link when the regex does
not match or the channel is unknown, else `<#id>`. -/
def parseChannel (g : GuildData) (id : List Char) : List Char :=
  if isPref ("#_discord_".data) id then
    let rest := id.drop 10
    let d1 := rest.takeWhile Char.isDigit
    let rest2 := rest.drop d1.length
    match rest2.head? with
    | some c =>
      if c = '_' then
        let d2 := (rest2.drop 1).takeWhile Char.isDigit
        if g.channels.contains d2 then ("<#".data) ++ d2 ++ (">".data)
        else ("https://matrix.to/#/".data) ++ id
      else ("https://matrix.to/#/".data) ++ id
    | none => ("https://matrix.to/#/".data) ++ id
  else ("https://matrix.to/#/".data) ++ id

/-- The `/^:?(\w+):?/` capture of `parseImageContent`: optional leading
colon, then at least one word character. -/
def emoteName (n : List Char) : Option (List Char) :=
  let m := match n with
    | c :: rest => if c = ':' then rest else n
    | [] => n
  let w := m.takeWhile wordChar
  if w = [] then none else some w

/-- Embedding of `MatrixMessageProcessor.parseImageContent`, src/unnamed/part_000 lines
130-160: resolve a custom emoji by mxc source, then by alt/title name;
unresolved images render their escaped alt/title text. -/
def parseImageContent (e : MMPEnv) (attrs : List (List Char × List Char)) : List Char :=
  let name := match truthyL (getAttr attrs ("alt".data)) with
    | some a => a
    | none => match truthyL (getAttr attrs ("title".data)) with
      | some t => t
      | none => []
  let byMxc := match truthyL (getAttr attrs ("src".data)) with
    | some src =>
      match e.getEmojiByMxc src with
      | some eid => e.guild.emojis.find? (fun (em : EmojiData) => em.id == eid)
      | none => none
    | none => none
  let emoji := match byMxc with
    | some em => some em
    | none =>
      match emoteName name with
      | some nm => e.guild.emojis.find? (fun (em : EmojiData) => em.name == nm)
      | none => none
  match emoji with
  | none => escapeDiscord e.opts name
  | some em =>
    ("<".data) ++ (if em.animated then ("a".data) else []) ++ (":".data) ++ em.name
      ++ (":".data) ++ em.id ++ (">".data)

/-- Embedding of `MatrixMessageProcessor.parsePillContent`, src/unnamed/part_000 lines
108-128, with the children already rendered (`fallback`); the source renders
them lazily via `walkChildNodes`, which yields the same pure value. -/
def parsePill (g : GuildData) (attrs : List (List Char × List Char)) (fallback : List Char) : List Char :=
  match truthyL (getAttr attrs ("href".data)) with
  | none => fallback
  | some href =>
    if isPref ("https://matrix.to/#/".data) href then
      let id := href.drop ("https://matrix.to/#/".data).length
      let reply := match id.head? with
        | some c => if c = '@' then parseUser g id else if c = '#' then parseChannel g id else []
        | none => []
      if reply = [] then fallback else reply
    else fallback

mutual
/-- Embedding of `MatrixMessageProcessor.walkNode`, src/unnamed/part_000 lines 170-201:
text leaves are Discord-escaped; recognized elements wrap their walked
children in Discord markup; unrecognized elements pass through to their
children. -/
def walkNode (e : MMPEnv) : PNode → List Char
  | .text s => escapeDiscord e.opts s
  | .elem tag attrs children =>
    if tag = ("em".data) ∨ tag = ("i".data) then ("*".data) ++ walkForest e children ++ ("*".data)
    else if tag = ("strong".data) ∨ tag = ("b".data) then ("**".data) ++ walkForest e children ++ ("**".data)
    else if tag = ("u".data) then ("__".data) ++ walkForest e children ++ ("__".data)
    else if tag = ("del".data) then ("~~".data) ++ walkForest e children ++ ("~~".data)
    else if tag = ("code".data) then [Char.ofNat 96] ++ textOfList children ++ [Char.ofNat 96]
    else if tag = ("pre".data) then
      [Char.ofNat 96, Char.ofNat 96, Char.ofNat 96] ++ parsePreContent (textOfList children)
        ++ [Char.ofNat 96, Char.ofNat 96, Char.ofNat 96]
    else if tag = ("a".data) then parsePill e.guild attrs (walkForest e children)
    else if tag = ("img".data) then parseImageContent e attrs
    else if tag = ("br".data) then ['\n']
    else walkForest e children

/-- Embedding of `MatrixMessageProcessor.walkChildNodes`, src/unnamed/part_000 lines
162-168: concatenation of the walks of the child nodes. -/
def walkForest (e : MMPEnv) : List PNode → List Char
  | [] => []
  | n :: rest => walkNode e n ++ walkForest e rest
end

/-- A Matrix `m.room.message` content (`IMatrixMessage`).  The formatted body
is stored already parsed (parsing is done by the external HTML parser; the
synthetic `<div>` wrapper of `FormatMessage` is an unrecognized element and
therefore renders exactly its children, i.e. this forest). -/
structure IMatrixMessage where
  body : List Char
  formatted_body : Option (List PNode) := none
  msgtype : String

/-- The sender profile passed to `FormatMessage` (`IMatrixEvent` with a
possibly missing displayname). -/
structure ProfileEvt where
  displayname : Option (List Char) := none
deriving DecidableEq

/-- Embedding of `MatrixMessageProcessor.FormatMessage`, src/unnamed/part_000 lines 18-50:
a formatted body is walked as a tree, a plain body is Discord-escaped
directly; `m.emote` messages are wrapped in emphasis, with the displayname
prepended when its length lies within [2, 32]. -/
def FormatMessage (e : MMPEnv) (msg : IMatrixMessage) (profile : Option ProfileEvt) : List Char :=
  let reply := match msg.formatted_body with
    | some forest => walkForest e forest
    | none => escapeDiscord e.opts msg.body
  if msg.msgtype = "m.emote" then
    match profile with
    | some p =>
      match truthyL p.displayname with
      | some d =>
        if 2 ≤ d.length ∧ d.length ≤ 32 then ('_' :: d) ++ (' ' :: reply) ++ ['_']
        else '_' :: (reply ++ ['_'])
      | none => '_' :: (reply ++ ['_'])
    | none => '_' :: (reply ++ ['_'])
  else reply

end Mmp

namespace Mmp

/-- Modelled from the spec: "converting A→B escapes exactly the
markup-reserved character set" — the per-character escaping map that inserts
one backslash before each of `\ * _ ~ `&#96;` and leaves every other
character unchanged.  Used as the reference point for the escaping claims. -/
def specEscape (s : List Char) : List Char :=
  s.flatMap (fun c => if c ∈ escapeChars then ['\\', c] else [c])

/-- Removal of the backslash escapes that `specEscape` inserts: a backslash
immediately followed by a markup-reserved character is dropped. -/
def unescapeList : List Char → List Char
  | [] => []
  | [c] => [c]
  | c :: d :: rest =>
    if c = '\\' ∧ d ∈ escapeChars then d :: unescapeList rest
    else c :: unescapeList (d :: rest)

/-- One global single-character replacement by its escaped form,
the flat-map view of one iteration of the `escapeChars.forEach` loop. -/
def esc1 (x : Char) (s : List Char) : List Char :=
  s.flatMap (fun c => if c = x then ['\\', x] else [c])

theorem specEscape_nil : specEscape [] = [] := rfl

theorem specEscape_cons_mem (c : Char) (l : List Char) (h : c ∈ escapeChars) :
    specEscape (c :: l) = '\\' :: c :: specEscape l := by
  simp [specEscape, List.flatMap_cons, h]

theorem specEscape_cons_not (c : Char) (l : List Char) (h : c ∉ escapeChars) :
    specEscape (c :: l) = c :: specEscape l := by
  simp [specEscape, List.flatMap_cons, h]

/-- A global replace leaves a string without any occurrence of the pattern
unchanged. -/
theorem listReplace_not_contains (pat rep s : List Char) (h : hasSubstr s pat = false) :
    listReplace pat rep s = s := by
  induction s with
  | nil => rfl
  | cons c rest ih =>
    simp only [hasSubstr, Bool.or_eq_false_iff] at h
    simp only [listReplace, replaceAux, h.1, if_false]
    exact congrArg (c :: ·) (ih h.2)

/-- A single-character global replace is the per-character flat map. -/
theorem listReplace_single (x : Char) (rep s : List Char) :
    listReplace [x] rep s = s.flatMap (fun c => if c = x then rep else [c]) := by
  induction s with
  | nil => rfl
  | cons c rest ih =>
    simp only [listReplace, replaceAux, List.flatMap_cons] at *
    by_cases hx : x = c
    · subst hx
      simp [isPref, ih]
    · have hb : (x == c) = false := by simp [hx]
      have hc : ¬ c = x := fun hh => hx hh.symm
      simp [isPref, hb, hc, ih]

theorem esc1_append (x : Char) (a b : List Char) : esc1 x (a ++ b) = esc1 x a ++ esc1 x b := by
  simp [esc1]

theorem esc1_cons (x c : Char) (l : List Char) : esc1 x (c :: l) = esc1 x [c] ++ esc1 x l := by
  simp [esc1, List.flatMap_cons]

/-- Effect of the five chained single-character escapes on one character. -/
theorem chain_char (c : Char) :
    esc1 (Char.ofNat 96) (esc1 '~' (esc1 '_' (esc1 '*' (esc1 '\\' [c]))))
      = (if c ∈ escapeChars then ['\\', c] else [c]) := by
  by_cases h1 : c = '\\'
  · subst h1; decide
  by_cases h2 : c = '*'
  · subst h2; decide
  by_cases h3 : c = '_'
  · subst h3; decide
  by_cases h4 : c = '~'
  · subst h4; decide
  by_cases h5 : c = Char.ofNat 96
  · subst h5; decide
  simp [esc1, escapeChars, h1, h2, h3, h4, h5]

/-- The five chained single-character escapes equal the one-pass
per-character escaping map. -/
theorem chain_eq (s : List Char) :
    esc1 (Char.ofNat 96) (esc1 '~' (esc1 '_' (esc1 '*' (esc1 '\\' s)))) = specEscape s := by
  induction s with
  | nil => rfl
  | cons c rest ih =>
    rw [esc1_cons '\\' c rest, esc1_append, esc1_append, esc1_append, esc1_append, chain_char, ih]
    by_cases h : c ∈ escapeChars
    · rw [specEscape_cons_mem c rest h, if_pos h]; rfl
    · rw [specEscape_cons_not c rest h, if_neg h]; rfl

/-- On a body without the broadcast tokens `@everyone`, `@here`, `@room`,
`escapeDiscord` is exactly the per-character escaping map: it backslash
escapes the characters `\ * _ ~ `&#96;` and nothing else. -/
theorem escapeDiscord_eq_spec (opts : MatrixMessageProcessorOpts) (s : List Char)
    (h1 : hasSubstr s ("@everyone".data) = false)
    (h2 : hasSubstr s ("@here".data) = false)
    (h3 : hasSubstr s ("@room".data) = false) :
    escapeDiscord opts s = specEscape s := by
  have e1 : (if opts.disableEveryone = true then listReplace ("@everyone".data) ("@ everyone".data) s else s) = s := by
    cases opts.disableEveryone <;> simp [listReplace_not_contains _ _ _ h1]
  have e2 : (if opts.disableHere = true then listReplace ("@here".data) ("@ here".data) s else s) = s := by
    cases opts.disableHere <;> simp [listReplace_not_contains _ _ _ h2]
  simp only [escapeDiscord]
  rw [e1, e2, listReplace_not_contains _ _ _ h3]
  show listReplace [Char.ofNat 96] _ (listReplace ['~'] _ (listReplace ['_'] _ (listReplace ['*'] _ (listReplace ['\\'] _ s)))) = _
  rw [listReplace_single, listReplace_single, listReplace_single, listReplace_single, listReplace_single]
  exact chain_eq s

theorem unescape_cons (c : Char) (l : List Char) (h : c ≠ '\\') :
    unescapeList (c :: l) = c :: unescapeList l := by
  cases l with
  | nil => rfl
  | cons d rest => simp [unescapeList, h]

/-- Removing the inserted backslash escapes reconstructs the input. -/
theorem unescape_specEscape (s : List Char) : unescapeList (specEscape s) = s := by
  induction s with
  | nil => rfl
  | cons c rest ih =>
    by_cases hc : c ∈ escapeChars
    · rw [specEscape_cons_mem c rest hc]
      simp [unescapeList, hc, ih]
    · rw [specEscape_cons_not c rest hc]
      have hcb : c ≠ '\\' := fun hh => hc (hh ▸ (by decide : '\\' ∈ escapeChars))
      rw [unescape_cons c _ hcb, ih]

/-- Escaping does not create or destroy prefix occurrences of a pattern made
of non-reserved characters. -/
theorem isPref_specEscape (pat : List Char) (s : List Char)
    (hp : ∀ c ∈ pat, c ∉ escapeChars) :
    isPref pat (specEscape s) = isPref pat s := by
  induction s generalizing pat with
  | nil => cases pat <;> rfl
  | cons c rest ih =>
    cases pat with
    | nil => rfl
    | cons p ps =>
      have hpns : p ∉ escapeChars := hp p (by simp)
      by_cases hc : c ∈ escapeChars
      · have hpb : (p == '\\') = false := by
          have : p ≠ '\\' := fun h => hpns (h ▸ (by decide : '\\' ∈ escapeChars))
          simp [this]
        have hpc : (p == c) = false := by
          have : p ≠ c := fun h => hpns (h ▸ hc)
          simp [this]
        rw [specEscape_cons_mem c rest hc]
        simp [isPref, hpb, hpc]
      · rw [specEscape_cons_not c rest hc]
        simp only [isPref]
        rw [ih ps (fun x hx => hp x (List.mem_cons_of_mem _ hx))]

/-- Escaping does not create occurrences of a pattern made of non-reserved
characters: a token-free body stays token-free after escaping. -/
theorem hasSubstr_specEscape (pat : List Char) (s : List Char)
    (hne : pat ≠ []) (hp : ∀ c ∈ pat, c ∉ escapeChars)
    (h : hasSubstr s pat = false) :
    hasSubstr (specEscape s) pat = false := by
  induction s with
  | nil => simpa [specEscape] using h
  | cons c rest ih =>
    simp only [hasSubstr, Bool.or_eq_false_iff] at h
    obtain ⟨hpre, hrest⟩ := h
    cases pat with
    | nil => exact absurd rfl hne
    | cons p ps =>
      have hpns : p ∉ escapeChars := hp p (by simp)
      by_cases hc : c ∈ escapeChars
      · have hpb : (p == '\\') = false := by
          have : p ≠ '\\' := fun hh => hpns (hh ▸ (by decide : '\\' ∈ escapeChars))
          simp [this]
        have hpc : (p == c) = false := by
          have : p ≠ c := fun hh => hpns (hh ▸ hc)
          simp [this]
        rw [specEscape_cons_mem c rest hc]
        simp [hasSubstr, isPref, hpb, hpc, ih hrest]
      · rw [specEscape_cons_not c rest hc]
        have hpe : isPref (p :: ps) (c :: specEscape rest) = false := by
          by_cases hpc : p = c
          · subst hpc
            cases ps with
            | nil => simp [isPref] at hpre
            | cons q qs =>
              simp only [isPref, Bool.and_eq_false_iff] at hpre ⊢
              rcases hpre with hpre | hpre
              · exact Or.inl hpre
              · refine Or.inr ?_
                rw [isPref_specEscape (q :: qs) rest (fun x hx => hp x (List.mem_cons_of_mem _ hx))]
                exact hpre
          · have : (p == c) = false := by simp [hpc]
            simp [isPref, this]
        simp [hasSubstr, hpe, ih hrest]

/-- Escaping an already-escaped string triples the backslashes in front of
each reserved character of the original (the single escape backslash doubles,
and the character gains a fresh one): re-escaping is not the identity. -/
theorem specEscape_specEscape (s : List Char) :
    specEscape (specEscape s)
      = s.flatMap (fun c => if c ∈ escapeChars then ['\\', '\\', '\\', c] else [c]) := by
  induction s with
  | nil => rfl
  | cons c rest ih =>
    by_cases hc : c ∈ escapeChars
    · rw [specEscape_cons_mem c rest hc,
        specEscape_cons_mem '\\' _ (by decide), specEscape_cons_mem c _ hc, ih]
      simp [List.flatMap_cons, hc]
    · rw [specEscape_cons_not c rest hc, specEscape_cons_not c _ hc, ih]
      simp [List.flatMap_cons, hc]

theorem FormatMessage_plain (e : MMPEnv) (body : List Char) :
    FormatMessage e ⟨body, none, "m.text"⟩ none = escapeDiscord e.opts body := by
  have hne : ("m.text" : String) ≠ "m.emote" := by decide
  simp [FormatMessage, hne]

/-- A message-processor environment with the default options and an empty
guild, as used on plain-text bodies (which never consult the guild). -/
def defaultMMPEnv : MMPEnv := ⟨⟨true, true⟩, ⟨[], [], []⟩, fun _ => none⟩

/-- C1, counterexample: the claim quantifies over every plain-text message,
but `FormatMessage` rewrites the broadcast tokens before escaping
(`@room` becomes `@here`), and wraps `m.emote` bodies in underscores, so the
output's unescaped form does not reconstruct such inputs, and characters
outside `\ * _ ~ `&#96;` are touched. -/
theorem c1_counterexample :
    FormatMessage defaultMMPEnv ⟨("hey @room".data), none, "m.text"⟩ none = ("hey @here".data)
    ∧ unescapeList (FormatMessage defaultMMPEnv ⟨("hey @room".data), none, "m.text"⟩ none)
        ≠ ("hey @room".data)
    ∧ FormatMessage defaultMMPEnv ⟨("floofs".data), none, "m.emote"⟩ none = ("_floofs_".data)
    ∧ unescapeList (FormatMessage defaultMMPEnv ⟨("floofs".data), none, "m.emote"⟩ none)
        ≠ ("floofs".data) := by
  decide

/-- C1 (amended): for every plain-text, non-emote message whose body contains
none of the broadcast tokens `@everyone`, `@here`, `@room`, `FormatMessage`
backslash-escapes exactly the characters `\ * _ ~ `&#96;` (it equals the
spec-modelled per-character map `specEscape`), removing the backslash escapes
reconstructs the input exactly, and escaping is not idempotent: applying
`FormatMessage` again to the already-escaped output doubles the backslashes
again (each reserved character of the original ends up behind three
backslashes). -/
theorem c1_escape_roundtrip (e : MMPEnv) (body : List Char)
    (h1 : hasSubstr body ("@everyone".data) = false)
    (h2 : hasSubstr body ("@here".data) = false)
    (h3 : hasSubstr body ("@room".data) = false) :
    FormatMessage e ⟨body, none, "m.text"⟩ none = specEscape body
    ∧ unescapeList (FormatMessage e ⟨body, none, "m.text"⟩ none) = body
    ∧ FormatMessage e ⟨FormatMessage e ⟨body, none, "m.text"⟩ none, none, "m.text"⟩ none
        = body.flatMap (fun c => if c ∈ escapeChars then ['\\', '\\', '\\', c] else [c]) := by
  have hmain : escapeDiscord e.opts body = specEscape body := escapeDiscord_eq_spec _ _ h1 h2 h3
  have t1 : hasSubstr (specEscape body) ("@everyone".data) = false :=
    hasSubstr_specEscape _ _ (by decide) (by decide) h1
  have t2 : hasSubstr (specEscape body) ("@here".data) = false :=
    hasSubstr_specEscape _ _ (by decide) (by decide) h2
  have t3 : hasSubstr (specEscape body) ("@room".data) = false :=
    hasSubstr_specEscape _ _ (by decide) (by decide) h3
  have houter : escapeDiscord e.opts (specEscape body) = specEscape (specEscape body) :=
    escapeDiscord_eq_spec _ _ t1 t2 t3
  refine ⟨?_, ?_, ?_⟩
  · rw [FormatMessage_plain, hmain]
  · rw [FormatMessage_plain, hmain, unescape_specEscape]
  · rw [FormatMessage_plain, FormatMessage_plain, hmain, houter, specEscape_specEscape]

/-- C1, witness: the amended theorem at the spec's own example input. -/
theorem c1_escape_roundtrip_witness :
    FormatMessage defaultMMPEnv ⟨("hello *world* how __are__ you?".data), none, "m.text"⟩ none
        = specEscape ("hello *world* how __are__ you?".data)
    ∧ unescapeList
          (FormatMessage defaultMMPEnv ⟨("hello *world* how __are__ you?".data), none, "m.text"⟩ none)
        = ("hello *world* how __are__ you?".data)
    ∧ FormatMessage defaultMMPEnv
          ⟨FormatMessage defaultMMPEnv ⟨("hello *world* how __are__ you?".data), none, "m.text"⟩ none,
            none, "m.text"⟩ none
        = ("hello *world* how __are__ you?".data).flatMap
            (fun c => if c ∈ escapeChars then ['\\', '\\', '\\', c] else [c]) :=
  c1_escape_roundtrip defaultMMPEnv _ (by decide) (by decide) (by decide)

/-- C6: `escapeDiscord` (the function handling the `@room` broadcast token,
src/unnamed/part_000 line 59) receives no sender, power-level or notification
context at all, and converts `@room` to `@here` unconditionally — under every
option configuration the token is converted, never passed through.  The
repository's own test suite (src/test/test_matrixmessageprocessor.ts,
"ignores @room to @here conversion, if insufficient power") expects
`hey @room` to stay unconverted for a low-power sender. -/
theorem c6_room_unconditional :
    escapeDiscord ⟨true, true⟩ ("hey @room".data) = ("hey @here".data)
    ∧ escapeDiscord ⟨false, false⟩ ("hey @room".data) = ("hey @here".data)
    ∧ escapeDiscord ⟨true, true⟩ ("hey @room".data) ≠ ("hey @room".data)
    ∧ escapeDiscord ⟨false, false⟩ ("hey @room".data) ≠ ("hey @room".data) := by
  decide

/-- C7: with the disable options set (the default), `escapeDiscord` defuses
`@everyone` / `@here` by inserting an ordinary space character (U+0020),
producing `@ everyone` / `@ here` — not by inserting a zero-width character:
the output differs from the zero-width-joined form `@U+200B everyone` that the
repository's own test suite (src/test/test_matrixmessageprocessor.ts,
"escapes @everyone" / "escapes @here") expects.  With the options unset the
substrings do pass through unchanged. -/
theorem c7_defuse_with_space :
    escapeDiscord ⟨true, true⟩ ("hey @everyone".data) = ("hey @ everyone".data)
    ∧ escapeDiscord ⟨true, true⟩ ("hey @here".data) = ("hey @ here".data)
    ∧ escapeDiscord ⟨true, true⟩ ("hey @everyone".data) ≠ ("hey @\u200Beveryone".data)
    ∧ escapeDiscord ⟨true, true⟩ ("hey @here".data) ≠ ("hey @\u200Bhere".data)
    ∧ escapeDiscord ⟨false, false⟩ ("hey @everyone".data) = ("hey @everyone".data)
    ∧ escapeDiscord ⟨false, false⟩ ("hey @here".data) = ("hey @here".data) := by
  decide

/-- The guild directory of the unresolved-user-pill scenario: only member
`12345` exists. -/
def pillGuild : GuildData := ⟨[("12345".data)], [], []⟩

/-- Environment for the pill scenario. -/
def pillEnv : MMPEnv := ⟨⟨true, true⟩, pillGuild, fun _ => none⟩

/-- An anchor pill referencing user id 789, which is not in the guild
directory, with link text `TestUsername`. -/
def pillAnchor : PNode :=
  .elem ("a".data) [(("href".data), ("https://matrix.to/#/@_discord_789:localhost".data))]
    [.text ("TestUsername".data)]

/-- C5: for an unresolved user pill `parseUser` returns the empty string, so
`walkNode` falls back to rendering the anchor's children — the plain link
text `TestUsername` — not "a plain link containing that id": the rendered
output is neither a native mention token nor the markdown link
`[TestUsername](https://matrix.to/#/@_discord_789:localhost)` that the
repository's own test suite (src/test/test_matrixmessageprocessor.ts,
"Ignores invalid user pills") expects.  A resolved pill does render the
native mention token. -/
theorem c5_unresolved_pill :
    walkNode pillEnv pillAnchor = ("TestUsername".data)
    ∧ parseUser pillGuild ("@_discord_789:localhost".data) = []
    ∧ walkNode pillEnv pillAnchor
        ≠ ("[TestUsername](https://matrix.to/#/@_discord_789:localhost)".data)
    ∧ parseUser pillGuild ("@_discord_12345:localhost".data) = ("<@12345>".data) := by
  decide

end Mmp

namespace Mep

/-- The `info` object of a media event content. -/
structure MInfo where
  size : Option Nat := none
  mimetype : Option String := none
deriving DecidableEq

/-- The `m.in_reply_to` object of a reply relation. -/
structure ReplyRef where
  event_id : String
deriving DecidableEq

/-- The `m.relates_to` object of an event content. -/
structure RelatesTo where
  m_in_reply_to : Option ReplyRef := none
deriving DecidableEq

/-- An `IMatrixEvent` content, with the fields the event processor reads. -/
structure MContent where
  body : Option String := none
  msgtype : Option String := none
  url : Option String := none
  info : Option MInfo := none
  m_relates_to : Option RelatesTo := none
deriving DecidableEq

/-- An `IMatrixEvent`. -/
structure MEvent where
  event_id : String := ""
  room_id : String := ""
  sender : String := ""
  type : String := ""
  content : MContent := {}
  origin_server_ts : Nat := 0
deriving DecidableEq

/-- JavaScript truthiness for an optional string (`undefined`/`""` falsy). -/
def truthy (o : Option String) : Option String :=
  match o with
  | some "" => none
  | some s => some s
  | none => none

/-- A member-state / profile object (`displayname`, `avatar_url`). -/
structure RProfile where
  displayname : Option String := none
  avatar_url : Option String := none
deriving DecidableEq

/-- Result of the `GetDiscordUserOrMember` capability. -/
inductive DUser where
  | user (username : String) (avatarURL : Option String)
  | member (displayName : String) (avatarURL : Option String)
deriving DecidableEq

/-- The author triple of a `Discord.RichEmbed`. -/
structure EmbedAuthor where
  name : String
  icon : Option String := none
  url : Option String := none
deriving DecidableEq

/-- A `Discord.RichEmbed`, restricted to the fields the processor sets. -/
structure DEmbed where
  description : String := ""
  author : Option EmbedAuthor := none
  fields : List (String × String) := []
  image : Option String := none
  timestamp : Option Nat := none
deriving DecidableEq

/-- The `IMatrixEventProcessorResult`: the message embed plus the optional reply
context embed. -/
structure EmbedResult where
  messageEmbed : DEmbed
  replyEmbed : Option DEmbed := none
deriving DecidableEq

/-- The capabilities consumed by the event processor, all owned by external
collaborators: room-scoped profile retrieval (`GetUserProfileForRoom`, whose
TTL cache wraps the external fetches), the sibling message converter
(`MatrixMessageProcessor.FormatMessage`), the bridge's remote-user test, the
Discord user lookup, media URL resolution, mime extension lookup, the
`intent.getEvent` fetch (`none` models a thrown fetch error) and the media
download (returning the payload's byte length). -/
structure REnv where
  getUserProfile : String → String → Option RProfile
  formatMessage : MContent → String
  isRemoteUser : String → Bool
  getDiscordUser : String → Option DUser
  mxcUrlToHttp : String → String
  mimeExt : Option String → String
  getEvent : String → String → Option MEvent
  download : String → Nat

/-- Removal of the first occurrence of a character, JavaScript
`s.replace("@", "")`. -/
def removeFirstChar (c : Char) : List Char → List Char
  | [] => []
  | x :: rest => if x = c then rest else x :: removeFirstChar c rest

/-- Embedding of `new MatrixUser(sender.replace("@", "")).localpart.substring("_discord".length)`:
the numeric Discord id carried in a bridged Matrix user id. -/
def discordUidOfSender (s : String) : String :=
  let noAt := removeFirstChar '@' s.data
  let localpart := noAt.takeWhile (fun c => c ≠ ':')
  String.mk (localpart.drop 8)

/-- The reply relation of an event content:
`content["m.relates_to"]["m.in_reply_to"].event_id` when both levels exist. -/
def referencedEventId (c : MContent) : Option String :=
  match c.m_relates_to with
  | none => none
  | some r =>
    match r.m_in_reply_to with
    | none => none
    | some ref => some ref.event_id

/-- Embedding of `MatrixEventProcessor.HasAttachment`, src/src/matrixeventprocessor.ts
lines 657-672. -/
def HasAttachment (ev : MEvent) : Bool :=
  (match ev.content.msgtype with
   | some t => (["m.image", "m.audio", "m.video", "m.file", "m.sticker"].contains t)
   | none => false)
  || (["m.sticker"].contains ev.type)

/-- The last `/`-separated part of a path (`path.basename` without extension
stripping). -/
def baseNamePart (l : List Char) : List Char :=
  (l.reverse.takeWhile (fun c => c ≠ '/')).reverse

/-- Embedding of `path.extname`: the suffix from the last dot of the basename, empty when
there is no dot or the only dot leads the basename. -/
def extname (s : String) : String :=
  let b := baseNamePart s.data
  let afterDot := b.reverse.takeWhile (fun c => c ≠ '.')
  if afterDot.length = b.length then ""
  else if afterDot.length + 1 = b.length then ""
  else String.mk ('.' :: afterDot.reverse)

/-- Embedding of `path.basename`. -/
def basename (s : String) : String := String.mk (baseNamePart s.data)

/-- Embedding of `MatrixEventProcessor.GetFilenameForMediaEvent`,
src/src/matrixeventprocessor.ts lines 719-727. -/
def GetFilenameForMediaEvent (env : REnv) (content : MContent) : String :=
  match truthy content.body with
  | some b =>
    if extname b ≠ "" then b
    else basename b ++ "." ++ env.mimeExt (content.info.bind (fun i => i.mimetype))
  | none => "matrix-media." ++ env.mimeExt (content.info.bind (fun i => i.mimetype))

/-- The constant `MaxFileSize = 8000000`, src/src/matrixeventprocessor.ts line 323. -/
def MaxFileSize : Nat := 8000000

/-- Result of `HandleAttachment`: either a string (empty, or the
`[name](url)` link reference) or an inline `Discord.FileOptions` attachment
(whose payload we track by name and byte length). -/
inductive AttachRes where
  | str (s : String)
  | file (name : String) (byteLength : Nat)
deriving DecidableEq

/-- Embedding of `MatrixEventProcessor.HandleAttachment`, src/src/matrixeventprocessor.ts
lines 518-552: non-attachments and url-less events yield an empty string; a
declared size at or above the ceiling skips the download and yields the link
reference; otherwise the media is downloaded and re-checked, demoting to the
link reference when the actual payload is still at or above the ceiling. -/
def HandleAttachment (env : REnv) (ev : MEvent) : AttachRes :=
  if HasAttachment ev then
    let info := ev.content.info.getD { size := some 0 }
    match truthy ev.content.url with
    | none => .str ""
    | some u =>
      let size := info.size.getD 0
      let url := env.mxcUrlToHttp u
      let name := GetFilenameForMediaEvent env { ev.content with info := some info }
      if size < MaxFileSize then
        let bytes := env.download url
        if bytes < MaxFileSize then .file name bytes
        else .str ("[" ++ name ++ "](" ++ url ++ ")")
      else .str ("[" ++ name ++ "](" ++ url ++ ")")
  else .str ""

/-- Embedding of `MatrixEventProcessor.SetEmbedAuthor`, src/src/matrixeventprocessor.ts
lines 674-717: a remote (Discord) sender resolved against Discord wins;
otherwise the profile displayname is used when its length lies in [2, 32],
clipped to 32 characters, with a matrix.to author link. -/
def SetEmbedAuthor (env : REnv) (sender : String) (profile : Option RProfile) : EmbedAuthor :=
  let fallback :=
    let dn := match profile with
      | some p =>
        match truthy p.displayname with
        | some d => if 2 ≤ d.length ∧ d.length ≤ 32 then d else sender
        | none => sender
      | none => sender
    let av := match profile with
      | some p => (truthy p.avatar_url).map env.mxcUrlToHttp
      | none => none
    { name := dn.take 32, icon := av, url := some ("https://matrix.to/#/" ++ sender) : EmbedAuthor }
  if env.isRemoteUser sender then
    match env.getDiscordUser (discordUidOfSender sender) with
    | some (.user un av) => { name := un, icon := av }
    | some (.member dn av) => { name := dn, icon := av }
    | none => fallback
  else fallback

/-- The message embed built by `EventToEmbed` before reply handling:
formatted body as description (empty for stickers) and the author set by
`SetEmbedAuthor`. -/
def buildMessageEmbed (env : REnv) (ev : MEvent) : DEmbed :=
  let profile := env.getUserProfile ev.room_id ev.sender
  let body := if ev.type ≠ "m.sticker" then env.formatMessage ev.content else ""
  { description := body, author := some (SetEmbedAuthor env ev.sender profile) }

/-- The fixed fallback embed of `GetEmbedForReply` when the referenced event
cannot be fetched, src/src/matrixeventprocessor.ts lines 601-605. -/
def fallbackReplyEmbed : DEmbed :=
  { description := "Reply with unknown content", author := some { name := "Unknown" } }

/-- Embedding of `sourceEvent.content.body = sourceEvent.content.body || "Reply with
unknown content"`, src/src/matrixeventprocessor.ts line 574. -/
def defaultReplyBody (ev : MEvent) : MEvent :=
  { ev with content := { ev.content with
      body := some (match truthy ev.content.body with
        | some b => b
        | none => "Reply with unknown content") } }

/-- The decorations `GetEmbedForReply` applies to the recursively built
source-event embed: ping field for a remote sender, source timestamp, and
image/link rendering of an attached medium. -/
def decorateReply (env : REnv) (src : MEvent) (base : DEmbed) : DEmbed :=
  let e1 := if env.isRemoteUser src.sender then
      { base with fields := base.fields ++ [("ping", "<@" ++ discordUidOfSender src.sender ++ ">")] }
    else base
  let e2 := { e1 with timestamp := some src.origin_server_ts }
  if HasAttachment src then
    let url := match truthy src.content.url with
      | some u => env.mxcUrlToHttp u
      | none => "null"
    let isImg := (match src.content.msgtype with
        | some t => (["m.image", "m.sticker"].contains t)
        | none => false) || (src.type == "m.sticker")
    if isImg then { e2 with image := some url }
    else { e2 with description := "[" ++ GetFilenameForMediaEvent env src.content ++ "](" ++ url ++ ")" }
  else e2

/-- The reply splice at the end of `EventToEmbed`, src/src/
matrixeventprocessor.ts lines 502-511: the first `ping` field of the reply
embed is moved into the message description. -/
def spliceReply (me : DEmbed) (re : Option DEmbed) : EmbedResult :=
  match re with
  | none => { messageEmbed := me, replyEmbed := none }
  | some r =>
    match r.fields.findIdx? (fun f => f.1 == "ping") with
    | some i =>
      { messageEmbed := { me with
          description := me.description ++ "\n(" ++ (((r.fields.get? i).map Prod.snd).getD "") ++ ")" },
        replyEmbed := some { r with fields := r.fields.eraseIdx i } }
    | none => { messageEmbed := me, replyEmbed := some r }

mutual
/-- Embedding of `MatrixEventProcessor.EventToEmbed`, src/src/matrixeventprocessor.ts
lines 479-516: build the message embed and, when `getReply` is set, resolve
the reply context through `GetEmbedForReply`, splicing its ping field.
The definition is total: the mutual recursion terminates because the nested
call re-enters with `getReply = false`. -/
def EventToEmbed (env : REnv) (ev : MEvent) (getReply : Bool) : EmbedResult :=
  let me := buildMessageEmbed env ev
  let re := if h : getReply = true then GetEmbedForReply env ev else none
  spliceReply me re
termination_by (cond getReply 2 0 : Nat)
decreasing_by
  subst h
  decide

/-- Embedding of `MatrixEventProcessor.GetEmbedForReply`, src/src/matrixeventprocessor.ts
lines 554-606: no reply relation yields nothing; a failed fetch of the
referenced event yields the fixed fallback embed; otherwise the source event
(with defaulted body) is rendered via `EventToEmbed` with reply resolution
disabled and decorated. -/
def GetEmbedForReply (env : REnv) (ev : MEvent) : Option DEmbed :=
  match referencedEventId ev.content with
  | none => none
  | some eid =>
    match env.getEvent ev.room_id eid with
    | none => some fallbackReplyEmbed
    | some src0 =>
      let src := defaultReplyBody src0
      some (decorateReply env src (EventToEmbed env src false).messageEmbed)
termination_by (1 : Nat)
decreasing_by
  decide
end

end Mep

namespace Mep

/-- With reply resolution disabled, `EventToEmbed` is just the message embed:
no nested reply is ever resolved. -/
theorem EventToEmbed_false (env : REnv) (ev : MEvent) :
    EventToEmbed env ev false = { messageEmbed := buildMessageEmbed env ev, replyEmbed := none } := by
  rw [EventToEmbed]
  simp [spliceReply]

/-- With reply resolution enabled, `EventToEmbed` splices the embed produced
by `GetEmbedForReply` into the result. -/
theorem EventToEmbed_true (env : REnv) (ev : MEvent) :
    EventToEmbed env ev true = spliceReply (buildMessageEmbed env ev) (GetEmbedForReply env ev) := by
  rw [EventToEmbed]
  simp

/-- A failed fetch of the referenced event yields the fixed fallback embed. -/
theorem GetEmbedForReply_fallback (env : REnv) (ev : MEvent) (eid : String)
    (h1 : referencedEventId ev.content = some eid)
    (h2 : env.getEvent ev.room_id eid = none) :
    GetEmbedForReply env ev = some fallbackReplyEmbed := by
  rw [GetEmbedForReply, h1]
  simp [h2]

/-- A successful fetch renders the source event with reply resolution
disabled and decorates it. -/
theorem GetEmbedForReply_found (env : REnv) (ev : MEvent) (eid : String) (src : MEvent)
    (h1 : referencedEventId ev.content = some eid)
    (h2 : env.getEvent ev.room_id eid = some src) :
    GetEmbedForReply env ev
      = some (decorateReply env (defaultReplyBody src)
          (buildMessageEmbed env (defaultReplyBody src))) := by
  rw [GetEmbedForReply, h1]
  simp [h2, EventToEmbed_false]

theorem spliceReply_isSome (me : DEmbed) (r : DEmbed) :
    (spliceReply me (some r)).replyEmbed.isSome = true := by
  rcases hfi : r.fields.findIdx? (fun f => f.1 == "ping") with _ | i <;> simp [spliceReply, hfi]

/-- C2: for a reply chain of depth at least two (`ev` replies to `e2`, which
itself replies to `id3`), rendering the outer event produces exactly one
level of quoted context: the reply embed is present, the whole result depends
on the event-fetch capability only through its value at the directly
referenced event `id2` (so the quoted message's own reply relation at `id3`
is never resolved: replacing the fetcher by any `g` that agrees at `id2`
changes nothing), and the nested rendering runs with reply resolution
disabled — its reply embed is `none`.  Termination of the mutual recursion is
witnessed by `EventToEmbed`/`GetEmbedForReply` being total functions. -/
theorem c2_reply_depth_one (env : REnv) (g : String → String → Option MEvent)
    (ev e2 : MEvent) (id2 id3 : String)
    (h1 : referencedEventId ev.content = some id2)
    (h2 : env.getEvent ev.room_id id2 = some e2)
    (h3 : referencedEventId e2.content = some id3)
    (hg : g ev.room_id id2 = some e2) :
    (EventToEmbed env ev true).replyEmbed.isSome = true
    ∧ EventToEmbed { env with getEvent := g } ev true = EventToEmbed env ev true
    ∧ (EventToEmbed env e2 false).replyEmbed = none := by
  have hr := GetEmbedForReply_found env ev id2 e2 h1 h2
  have hr' := GetEmbedForReply_found { env with getEvent := g } ev id2 e2 h1 hg
  refine ⟨?_, ?_, ?_⟩
  · rw [EventToEmbed_true, hr]
    exact spliceReply_isSome _ _
  · rw [EventToEmbed_true, EventToEmbed_true, hr, hr']
    rfl
  · rw [EventToEmbed_false]

/-- The innermost event of the depth-2 witness chain. -/
def c2E3 : MEvent :=
  { event_id := "$e3", room_id := "!r", sender := "@c", type := "m.room.message",
    content := { body := some "deepest" } }

/-- The middle event of the witness chain: replies to `$e3`. -/
def c2E2 : MEvent :=
  { event_id := "$e2", room_id := "!r", sender := "@b", type := "m.room.message",
    content := { body := some "middle",
                 m_relates_to := some { m_in_reply_to := some ⟨"$e3"⟩ } } }

/-- The outer event of the witness chain: replies to `$e2`. -/
def c2Ev : MEvent :=
  { event_id := "$e1", room_id := "!r", sender := "@a", type := "m.room.message",
    content := { body := some "outer",
                 m_relates_to := some { m_in_reply_to := some ⟨"$e2"⟩ } } }

/-- Concrete environment resolving the witness chain. -/
def c2Env : REnv :=
  { getUserProfile := fun _ _ => none, formatMessage := fun _ => "body",
    isRemoteUser := fun _ => false, getDiscordUser := fun _ => none,
    mxcUrlToHttp := fun s => s, mimeExt := fun _ => "bin",
    getEvent := fun _ eid => if eid = "$e2" then some c2E2 else if eid = "$e3" then some c2E3 else none,
    download := fun _ => 0 }

/-- An event fetcher that agrees with `c2Env` at `$e2` but not at `$e3`. -/
def c2G : String → String → Option MEvent := fun _ eid => if eid = "$e2" then some c2E2 else none

/-- C2, witness: the theorem applied to the concrete depth-2 chain. -/
theorem c2_reply_depth_one_witness :
    (EventToEmbed c2Env c2Ev true).replyEmbed.isSome = true
    ∧ EventToEmbed { c2Env with getEvent := c2G } c2Ev true = EventToEmbed c2Env c2Ev true
    ∧ (EventToEmbed c2Env c2E2 false).replyEmbed = none :=
  c2_reply_depth_one c2Env c2G c2Ev c2E2 "$e2" "$e3" rfl (by decide) rfl (by decide)

/-- C9: for a message declaring a reply relation whose referenced source
event cannot be fetched (`getEvent` fails), `GetEmbedForReply` returns —
rather than raises — the fixed fallback embed, whose description is
"Reply with unknown content" and whose author is "Unknown". -/
theorem c9_reply_fallback (env : REnv) (ev : MEvent) (eid : String)
    (h1 : referencedEventId ev.content = some eid)
    (h2 : env.getEvent ev.room_id eid = none) :
    GetEmbedForReply env ev = some fallbackReplyEmbed
    ∧ fallbackReplyEmbed.description = "Reply with unknown content"
    ∧ fallbackReplyEmbed.author = some { name := "Unknown" } :=
  ⟨GetEmbedForReply_fallback env ev eid h1 h2, rfl, rfl⟩

/-- Environment whose event fetch always fails. -/
def c9Env : REnv :=
  { getUserProfile := fun _ _ => none, formatMessage := fun _ => "body",
    isRemoteUser := fun _ => false, getDiscordUser := fun _ => none,
    mxcUrlToHttp := fun s => s, mimeExt := fun _ => "bin",
    getEvent := fun _ _ => none, download := fun _ => 0 }

/-- C9, witness: the theorem at a concrete reply whose target is gone. -/
theorem c9_reply_fallback_witness :
    GetEmbedForReply c9Env c2Ev = some fallbackReplyEmbed
    ∧ fallbackReplyEmbed.description = "Reply with unknown content"
    ∧ fallbackReplyEmbed.author = some { name := "Unknown" } :=
  c9_reply_fallback c9Env c2Ev "$e2" rfl rfl

/-- C8: for an attachment-carrying event (one with a media url), the result
is the inline file attachment exactly when both the declared size and the
downloaded payload's byte length are below the 8,000,000-byte ceiling; if the
declared size is at or above the ceiling, or the post-download re-check finds
the payload at or above it, the result is the `[name](url)` link reference. -/
theorem c8_attachment_size_gate (env : REnv) (ev : MEvent) (u : String)
    (hatt : HasAttachment ev = true)
    (hurl : truthy ev.content.url = some u) :
    (HandleAttachment env ev
        = AttachRes.file
            (GetFilenameForMediaEvent env
              { ev.content with info := some (ev.content.info.getD { size := some 0 }) })
            (env.download (env.mxcUrlToHttp u))
      ↔ ((ev.content.info.getD { size := some 0 }).size.getD 0 < MaxFileSize
          ∧ env.download (env.mxcUrlToHttp u) < MaxFileSize))
    ∧ ((MaxFileSize ≤ (ev.content.info.getD { size := some 0 }).size.getD 0
        ∨ MaxFileSize ≤ env.download (env.mxcUrlToHttp u)) →
        HandleAttachment env ev
          = AttachRes.str
              ("[" ++ GetFilenameForMediaEvent env
                  { ev.content with info := some (ev.content.info.getD { size := some 0 }) }
                ++ "](" ++ env.mxcUrlToHttp u ++ ")")) := by
  simp only [HandleAttachment, hatt, if_true, hurl]
  by_cases hs : (ev.content.info.getD { size := some 0 }).size.getD 0 < MaxFileSize
  · by_cases hb : env.download (env.mxcUrlToHttp u) < MaxFileSize
    · simp [hs, hb]
    · simp [hs, hb, Nat.le_of_not_lt]
  · simp [hs, Nat.le_of_not_lt]

/-- A file event whose declared size (nine million bytes) is above the
ceiling. -/
def c8Ev : MEvent :=
  { event_id := "$f", room_id := "!r", sender := "@a", type := "m.room.message",
    content := { body := some "big.bin", msgtype := some "m.file",
                 url := some "mxc://big", info := some { size := some 9000000 } } }

/-- C8, witness: the theorem at the oversized concrete event under `c9Env`
(whose download oracle reports 0 bytes). -/
theorem c8_attachment_size_gate_witness :
    (HandleAttachment c9Env c8Ev
        = AttachRes.file
            (GetFilenameForMediaEvent c9Env
              { c8Ev.content with info := some (c8Ev.content.info.getD { size := some 0 }) })
            (c9Env.download (c9Env.mxcUrlToHttp "mxc://big"))
      ↔ ((c8Ev.content.info.getD { size := some 0 }).size.getD 0 < MaxFileSize
          ∧ c9Env.download (c9Env.mxcUrlToHttp "mxc://big") < MaxFileSize))
    ∧ ((MaxFileSize ≤ (c8Ev.content.info.getD { size := some 0 }).size.getD 0
        ∨ MaxFileSize ≤ c9Env.download (c9Env.mxcUrlToHttp "mxc://big")) →
        HandleAttachment c9Env c8Ev
          = AttachRes.str
              ("[" ++ GetFilenameForMediaEvent c9Env
                  { c8Ev.content with info := some (c8Ev.content.info.getD { size := some 0 }) }
                ++ "](" ++ c9Env.mxcUrlToHttp "mxc://big" ++ ")")) :=
  c8_attachment_size_gate c9Env c8Ev "mxc://big" (by decide) rfl

end Mep

namespace Bot

/-- An inbound Discord message as read by `DiscordBot.OnMessage`. -/
structure DMsg where
  id : String
  authorId : String
  webhookID : Option String := none
  content : String := ""
deriving DecidableEq

/-- The terminal action of one `OnMessage` invocation: dropped as a repeated
(echoed) message, dropped as the bot's own message, dropped as the bridge's
webhook message, consumed as a provisioning reply or a `!matrix` command, or
passed on to the delivery pipeline. -/
inductive MsgOutcome where
  | repeatedIgnored
  | ownMessage
  | webhookFiltered
  | provisionResponse
  | matrixCommand
  | processed
deriving DecidableEq

/-- JavaScript `Array.prototype.indexOf` on the sparse `sentMessages` array:
the first index holding exactly the identifier (holes, modelled as `none`,
never match). -/
def indexOfSent (l : List (Option String)) (x : String) : Option Nat :=
  match l with
  | [] => none
  | a :: rest => if a = some x then some 0 else (indexOfSent rest x).map (· + 1)

/-- Embedding of `DiscordBot.OnMessage`, src/src/matrixeventprocessor.ts lines 1198-1248:
the state is the `sentMessages` list; an identifier found in it is deleted
(JavaScript `delete` leaves a hole) and the message is dropped before any
further check; otherwise the own-bot, webhook, provisioning and command
checks run in source order, and anything left is processed (delivered). -/
def OnMessage (sent : List (Option String)) (botId : String) (matrixWebhook : Option String)
    (hasPendingRequest : Bool) (m : DMsg) : List (Option String) × MsgOutcome :=
  match indexOfSent sent m.id with
  | some i => (sent.set i none, MsgOutcome.repeatedIgnored)
  | none =>
    if m.authorId = botId then (sent, MsgOutcome.ownMessage)
    else
      let afterWebhook :=
        if (m.content = "!approve" ∨ m.content = "!deny") ∧ hasPendingRequest then
          (sent, MsgOutcome.provisionResponse)
        else if ("!matrix".isPrefixOf m.content) then (sent, MsgOutcome.matrixCommand)
        else (sent, MsgOutcome.processed)
      match m.webhookID with
      | some w => if matrixWebhook = some w then (sent, MsgOutcome.webhookFiltered) else afterWebhook
      | none => afterWebhook

theorem indexOfSent_of_contains (l : List (Option String)) (x : String)
    (h : l.contains (some x) = true) : ∃ i, indexOfSent l x = some i := by
  induction l with
  | nil => simp at h
  | cons a rest ih =>
    by_cases ha : a = some x
    · exact ⟨0, by simp [indexOfSent, ha]⟩
    · have h' : rest.contains (some x) = true := by
        simp only [List.contains_cons, Bool.or_eq_true, beq_iff_eq] at h
        rcases h with h | h
        · exact absurd h.symm ha
        · exact h
      obtain ⟨j, hj⟩ := ih h'
      exact ⟨j + 1, by simp [indexOfSent, ha, hj]⟩

/-- C4: an inbound Discord message whose identifier appears in the
recently-sent list is never re-delivered: `OnMessage` clears the first
occurrence of the identifier from the list and stops with outcome
`repeatedIgnored`, before any further processing. -/
theorem c4_echo_suppression (sent : List (Option String)) (botId : String)
    (wh : Option String) (pending : Bool) (m : DMsg)
    (h : sent.contains (some m.id) = true) :
    ∃ i, indexOfSent sent m.id = some i
      ∧ OnMessage sent botId wh pending m = (sent.set i none, MsgOutcome.repeatedIgnored) := by
  obtain ⟨i, hi⟩ := indexOfSent_of_contains sent m.id h
  exact ⟨i, hi, by simp [OnMessage, hi]⟩

/-- C4, witness: a message echoing the second recorded identifier. -/
theorem c4_echo_suppression_witness :
    ∃ i, indexOfSent [some "a", some "b"] "b" = some i
      ∧ OnMessage [some "a", some "b"] "bot" none false ⟨"b", "@u", none, "hi"⟩
          = ([some "a", some "b"].set i none, MsgOutcome.repeatedIgnored) :=
  c4_echo_suppression [some "a", some "b"] "bot" none false ⟨"b", "@u", none, "hi"⟩ (by decide)

/-- A stored event-identifier mapping entry (`DbEvent`). -/
structure DbEntryRec where
  DiscordId : String
  GuildId : String
  ChannelId : String
deriving DecidableEq

/-- The externally visible actions of `ProcessMatrixRedact`: the mapping
lookup, and one message deletion per mapped destination message. -/
inductive RedactAction where
  | storeLookup (key : String)
  | deleteMessage (guildId channelId discordId : String)
deriving DecidableEq

/-- The configuration bit read by `ProcessMatrixRedact`. -/
structure BridgeCfg where
  disableDeletionForwarding : Bool
deriving DecidableEq

/-- A Matrix redaction event. -/
structure RedactEvent where
  redacts : String
  room_id : String
  sender : String := ""
deriving DecidableEq

/-- Embedding of `DiscordBot.ProcessMatrixRedact`, src/src/matrixeventprocessor.ts lines
1063-1090, as its trace of externally visible actions: with deletion
forwarding disabled it returns before the store lookup; otherwise it looks
the mapping up under `redacts + ";" + room_id` and deletes each mapped
Discord message. -/
def ProcessMatrixRedact (cfg : BridgeCfg) (store : String → List DbEntryRec)
    (ev : RedactEvent) : List RedactAction :=
  if cfg.disableDeletionForwarding then []
  else
    let key := ev.redacts ++ ";" ++ ev.room_id
    RedactAction.storeLookup key ::
      (store key).map (fun e => RedactAction.deleteMessage e.GuildId e.ChannelId e.DiscordId)

/-- C10: with `bridge.disableDeletionForwarding` set, `ProcessMatrixRedact`
returns immediately: no mapping lookup, no destination deletion, no action at
all — bridge state and destination messages are untouched. -/
theorem c10_redact_disabled (cfg : BridgeCfg) (store : String → List DbEntryRec)
    (ev : RedactEvent) (h : cfg.disableDeletionForwarding = true) :
    ProcessMatrixRedact cfg store ev = [] := by
  simp [ProcessMatrixRedact, h]

/-- C10, witness: a redaction whose mapping exists in the store still
produces no action when the flag is set. -/
theorem c10_redact_disabled_witness :
    ProcessMatrixRedact ⟨true⟩ (fun _ => [⟨"777", "g1", "c1"⟩]) ⟨"$dead", "!r", "@a"⟩ = [] :=
  c10_redact_disabled ⟨true⟩ (fun _ => [⟨"777", "g1", "c1"⟩]) ⟨"$dead", "!r", "@a"⟩ rfl

end Bot

namespace Chain

/-- Status of one delivery task of a channel's queue: not yet begun, begun
(its network call was issued) but not settled, or settled (its promise
resolved or rejected — the try/catch in `DiscordBot.run` settles the chained
promise on error as well). -/
inductive TStatus where
  | pending
  | started
  | settled
deriving DecidableEq

/-- One scheduler step over the state of a single channel's delivery chain
(`this.discordMessageQueue[channel.id]` in `DiscordBot.run`,
src/src/matrixeventprocessor.ts lines 838-873).  The state is the status of
each of the `n` enqueued tasks plus the trace of begun network calls, in
order.  Because task `i` is chained onto the promise stored by task `i - 1`
(`await (this.discordMessageQueue[id] || Promise.resolve())`), it may begin —
appending `i` to the trace — only once its predecessor has settled; a begun
task settles at an arbitrary later step, modelling arbitrary network
latency. -/
inductive ChainStep (n : Nat) :
    (Nat → TStatus) × List Nat → (Nat → TStatus) × List Nat → Prop where
  | start (f : Nat → TStatus) (tr : List Nat) (i : Nat) (hi : i < n)
      (hp : f i = TStatus.pending)
      (hprev : i = 0 ∨ f (i - 1) = TStatus.settled) :
      ChainStep n (f, tr) (Function.update f i TStatus.started, tr ++ [i])
  | settle (f : Nat → TStatus) (tr : List Nat) (i : Nat)
      (hs : f i = TStatus.started) :
      ChainStep n (f, tr) (Function.update f i TStatus.settled, tr)

/-- States of the delivery chain reachable from the all-pending initial
state under any interleaving. -/
inductive ChainReachable (n : Nat) : (Nat → TStatus) × List Nat → Prop where
  | init : ChainReachable n (fun _ => TStatus.pending, [])
  | step {s s' : (Nat → TStatus) × List Nat} :
      ChainReachable n s → ChainStep n s s' → ChainReachable n s'

/-- Invariant of the delivery chain: the trace is `0, 1, 2, ...` in order;
exactly the tasks below the trace length have begun; and of those all but
possibly the last have settled. -/
def ChainInv (n : Nat) (f : Nat → TStatus) (tr : List Nat) : Prop :=
  tr = List.range tr.length
  ∧ tr.length ≤ n
  ∧ (∀ i, i < tr.length → f i ≠ TStatus.pending)
  ∧ (∀ i, tr.length ≤ i → f i = TStatus.pending)
  ∧ (∀ i, i + 1 < tr.length → f i = TStatus.settled)

theorem chainInv_init (n : Nat) : ChainInv n (fun _ => TStatus.pending) [] := by
  refine ⟨rfl, Nat.zero_le _, ?_, fun i _ => rfl, ?_⟩ <;> simp

theorem chainInv_step (n : Nat) (f f' : Nat → TStatus) (tr tr' : List Nat)
    (hInv : ChainInv n f tr) (hstep : ChainStep n (f, tr) (f', tr')) :
    ChainInv n f' tr' := by
  obtain ⟨htr, hlen, hnp, hpend, hset⟩ := hInv
  cases hstep with
  | start _ _ i hi hp hprev =>
    have hik : i = tr.length := by
      rcases Nat.lt_trichotomy i tr.length with hlt | heq | hgt
      · exact absurd hp (hnp i hlt)
      · exact heq
      · rcases hprev with h0 | hs1
        · omega
        · have hpd : f (i - 1) = TStatus.pending := hpend (i - 1) (by omega)
          rw [hpd] at hs1
          exact absurd hs1 (by decide)
    subst hik
    have hlen' : (tr ++ [tr.length]).length = tr.length + 1 := by simp
    refine ⟨?_, ?_, ?_, ?_, ?_⟩
    · rw [hlen', List.range_succ, ← htr]
    · rw [hlen']
      omega
    · intro j hj
      rw [hlen'] at hj
      by_cases hji : j = tr.length
      · subst hji
        rw [Function.update_same]
        decide
      · rw [Function.update_noteq hji]
        exact hnp j (by omega)
    · intro j hj
      rw [hlen'] at hj
      rw [Function.update_noteq (by omega)]
      exact hpend j (by omega)
    · intro j hj
      rw [hlen'] at hj
      have hji : j ≠ tr.length := by omega
      rw [Function.update_noteq hji]
      by_cases hjk : j + 1 < tr.length
      · exact hset j hjk
      · have hji1 : j = tr.length - 1 := by omega
        rcases hprev with h0 | hs1
        · omega
        · rw [hji1]
          exact hs1
  | settle _ _ i hs =>
    have hik : i < tr.length := by
      by_contra hcon
      have hpd : f i = TStatus.pending := hpend i (Nat.le_of_not_lt hcon)
      rw [hpd] at hs
      exact absurd hs (by decide)
    refine ⟨htr, hlen, ?_, ?_, ?_⟩
    · intro j hj
      by_cases hji : j = i
      · subst hji
        rw [Function.update_same]
        decide
      · rw [Function.update_noteq hji]
        exact hnp j hj
    · intro j hj
      rw [Function.update_noteq (by omega)]
      exact hpend j hj
    · intro j hj
      by_cases hji : j = i
      · subst hji
        rw [Function.update_same]
      · rw [Function.update_noteq hji]
        exact hset j hj

/-- C3: for a destination channel with `n` enqueued delivery tasks, in every
state reachable under any interleaving of task starts and settlements, the
trace of begun network calls is exactly `0, 1, ..., k-1` — the destination
observes the messages in exactly the order they were enqueued, because task
`i + 1` cannot begin its network call until task `i` has settled. -/
theorem c3_fifo_delivery (n : Nat) (s : (Nat → TStatus) × List Nat)
    (h : ChainReachable n s) :
    s.2 = List.range s.2.length ∧ s.2.length ≤ n := by
  have hInv : ChainInv n s.1 s.2 := by
    induction h with
    | init => exact chainInv_init n
    | step hr hstep ih => exact chainInv_step n _ _ _ _ ih hstep
  exact ⟨hInv.1, hInv.2.1⟩

/-- The status function of the witness schedule after starting and settling
task 0 and starting task 1. -/
def c3WitnessF : Nat → TStatus :=
  Function.update (Function.update (Function.update (fun _ => TStatus.pending) 0
    TStatus.started) 0 TStatus.settled) 1 TStatus.started

/-- C3, witness: the concrete 2-task schedule start 0, settle 0, start 1 is
reachable, and the theorem applied to it yields its in-order trace. -/
theorem c3_fifo_delivery_witness :
    ChainReachable 2 (c3WitnessF, [0, 1])
    ∧ (([0, 1] : List Nat) = List.range ([0, 1] : List Nat).length
        ∧ ([0, 1] : List Nat).length ≤ 2) := by
  have h1 : ChainStep 2 (fun _ => TStatus.pending, [])
      (Function.update (fun _ => TStatus.pending) 0 TStatus.started, [] ++ [0]) :=
    ChainStep.start _ _ 0 (by decide) rfl (Or.inl rfl)
  have h2 : ChainStep 2
      (Function.update (fun _ => TStatus.pending) 0 TStatus.started, [] ++ [0])
      (Function.update (Function.update (fun _ => TStatus.pending) 0 TStatus.started) 0
          TStatus.settled, [] ++ [0]) :=
    ChainStep.settle _ _ 0 (by decide)
  have h3 : ChainStep 2
      (Function.update (Function.update (fun _ => TStatus.pending) 0 TStatus.started) 0
          TStatus.settled, [] ++ [0])
      (c3WitnessF, ([] ++ [0]) ++ [1]) :=
    ChainStep.start _ _ 1 (by decide) (by decide) (Or.inr (by decide))
  have hreach : ChainReachable 2 (c3WitnessF, [0, 1]) :=
    ChainReachable.step (ChainReachable.step (ChainReachable.step ChainReachable.init h1) h2) h3
  exact ⟨hreach, c3_fifo_delivery 2 _ hreach⟩

end Chain
